import Mathlib

/-!
Verification of the AkaDako board session layer
(`src/vm/extensions/block/akadako-board.js`).

The JavaScript source is shallowly embedded: pure helpers become Lean
functions on `Nat`/`Int`, the mutable board object becomes explicit record
states, frames sent to the transport become lists of message/effect values,
and the promise/event correlation machinery becomes a step function driven
by an explicit event trace.  Machine arithmetic (`&`, `|`, `<<`, `>>`, `%`)
is mirrored with the corresponding `Nat` bitwise operations.
-/

namespace AkaDako

/-! ## Sensor payload decoding (source lines 41-47) -/

/-- Shallow embedding of `decodeInt16FromTwo7bitBytes` from the source.
`lsb` and `msb` are rebuilt exactly as in the JavaScript (`|`, `<<`, `>>`,
`& 0xFF`), then `DataView.getInt16(0, true)` over `Uint8Array([lsb, msb])`
is the little-endian two's-complement read of the 16-bit word. -/
def decodeInt16FromTwo7bitBytes (bytes : List Nat) : Int :=
  let b0 := bytes.getD 0 0
  let b1 := bytes.getD 1 0
  let lsb := (b0 ||| (b1 <<< 7)) &&& 0xFF
  let msb := ((b1 >>> 1) ||| (if b1 >>> 6 ≠ 0 then 0b11000000 else 0)) &&& 0xFF
  let u := lsb ||| (msb <<< 8)
  if u < 0x8000 then (u : Int) else (u : Int) - 0x10000

/-- The specification's view of the decoder: reassemble the 14 significant
bits (7 from each byte, little-endian) and sign-extend from bit 13. -/
def signExtendFrom13 (b0 b1 : Nat) : Int :=
  let v := (b0 % 128) + 128 * (b1 % 128)
  if v < 8192 then (v : Int) else (v : Int) - 16384

/-! ## NeoPixel gamma table (source lines 56-62)

The source fills a 256-entry array with
`Math.floor((Math.pow((i / 255.0), gamma) * 255) + 0.5)` for `gamma = 2.8`.
The IEEE-754 double computation is idealized as exact real arithmetic. -/

/-- Shallow embedding of the gamma table initializer: entry `i` is
`Math.floor((i / 255)^2.8 * 255 + 0.5)` over the reals. -/
noncomputable def neoPixelGammaTable (i : Nat) : ℤ :=
  ⌊((i : ℝ) / 255) ^ (2.8 : ℝ) * 255 + 0.5⌋

/-! ## NeoPixel strip registry and frames (source lines 191-961)

`this.neoPixel` is the ordered strip registry, `this.pins[pin].mode`
writes land in `pinModes`, and every sysex message handed to the
throttled queue is appended to `frames` (the queue preserves order, so
the enqueue order is the send order). -/

/-- RGB triple as passed to `neoPixelSetColor` (`[r, g, b]`). -/
abbrev Color := Nat × Nat × Nat

/-- One entry of `this.neoPixel`: the `{pin, length}` object, plus the
lazily created `colors` cache (`Array(length)`, sparse slots as `none`). -/
structure Strip where
  pin : Nat
  length : Nat
  colors : Option (List (Option Color)) := none
  deriving DecidableEq

/-- Modelled from the spec: protocol constant of the external
`node-pixel-constants` module (§6 fixed protocol constants). -/
def PIXEL_COMMAND : Nat := 0x51

/-- Modelled from the spec: protocol constant of the external
`node-pixel-constants` module (§6 fixed protocol constants). -/
def PIXEL_CONFIG : Nat := 0x01

/-- Modelled from the spec: protocol constant of the external
`node-pixel-constants` module (§6 fixed protocol constants). -/
def PIXEL_SET_PIXEL : Nat := 0x03

/-- Modelled from the spec: protocol constant of the external
`node-pixel-constants` module (§6 fixed protocol constants). -/
def PIXEL_SHOW : Nat := 0x02

/-- Modelled from the spec: the GRB entry of `COLOR_ORDER` from the
external `node-pixel-constants` module. -/
def COLOR_ORDER_GRB : Nat := 0x01

/-- Modelled from the spec: `FIRMATA_7BIT_MASK` of the external
`node-pixel-constants` module (7-bit packing, §6). -/
def FIRMATA_7BIT_MASK : Nat := 0x7F

/-- The NeoPixel-relevant slice of the board object: the strip registry
`this.neoPixel`, `this.defaultNeoPixelLength`, the transport pin-mode
table, and the ordered list of sysex frames handed to the queue. -/
structure NeoPixelBoard where
  neoPixel : List Strip
  defaultNeoPixelLength : Nat
  pinModes : Nat → Nat
  frames : List (List Nat)

/-- Board state right after the constructor (source lines 106-214):
no strips, default strip length 3, no frames sent. -/
def initialBoard : NeoPixelBoard :=
  { neoPixel := [], defaultNeoPixelLength := 3, pinModes := fun _ => 0, frames := [] }

/-- The configuration frame built by `neoPixelConfigStrip` (source lines
832-839): header then, per registered strip, the color-order/pin byte and
the 7-bit-split length. -/
def pixelConfigMessage (strips : List Strip) : List Nat :=
  [PIXEL_COMMAND, PIXEL_CONFIG] ++
    strips.flatMap (fun aStrip =>
      [(COLOR_ORDER_GRB <<< 5) ||| aStrip.pin,
       aStrip.length &&& FIRMATA_7BIT_MASK,
       (aStrip.length >>> 7) &&& FIRMATA_7BIT_MASK])

/-- Shallow embedding of `neoPixelConfigStrip` (source lines 822-841):
sets the pin mode, upserts the strip (an existing strip keeps its object
— hence its color cache — but is filtered out and pushed to the end),
then enqueues one configuration frame for the whole table. -/
def neoPixelConfigStrip (s : NeoPixelBoard) (pin length : Nat) : NeoPixelBoard :=
  let strips :=
    match s.neoPixel.find? (fun aStrip => aStrip.pin == pin) with
    | some oldStrip =>
      (s.neoPixel.filter (fun aStrip => aStrip.pin != pin)) ++ [{ oldStrip with length := length }]
    | none =>
      (s.neoPixel.filter (fun aStrip => aStrip.pin != pin)) ++ [{ pin := pin, length := length }]
  { s with
    neoPixel := strips
    pinModes := fun p => if p = pin then PIXEL_COMMAND else s.pinModes p
    frames := s.frames ++ [pixelConfigMessage strips] }

/-- The `for (const aStrip of this.neoPixel)` loop of `neoPixelSetColor`
(source lines 853-863): accumulates the linear address and the
`prevStrip` flag.  The two sequential `if` statements of the body are
split on the incoming flag. -/
def addressLoop (pin index : Nat) : List Strip → Nat → Bool → Nat × Bool
  | [], address, prevStrip => (address, prevStrip)
  | aStrip :: rest, address, true =>
    if aStrip.pin = pin then
      addressLoop pin index rest (address + max 0 (index % aStrip.length)) false
    else
      addressLoop pin index rest (address + aStrip.length) true
  | aStrip :: rest, address, false =>
    if aStrip.pin = pin then
      addressLoop pin index rest (address + max 0 (index % aStrip.length)) false
    else
      addressLoop pin index rest address false

/-- Address and `prevStrip` flag computed by `neoPixelSetColor` before it
(possibly) configures a missing strip. -/
def neoPixelAddress (strips : List Strip) (pin index : Nat) : Nat × Bool :=
  addressLoop pin index strips 0 true

/-- Shallow embedding of `neoPixelColorValue` (source lines 70-87): gamma
correction per channel, then `(r << 16) + (g << 8) + b`.  The gamma table
is a parameter, as in the source. -/
def neoPixelColorValue (colors : Color) (gammaTable : Nat → Nat) : Nat :=
  (gammaTable colors.1 <<< 16) + (gammaTable colors.2.1 <<< 8) + gammaTable colors.2.2

/-- The set-pixel frame of `neoPixelSetColor` (source lines 872-880):
address and packed color value split into 7-bit bytes. -/
def pixelSetMessage (address colorValue : Nat) : List Nat :=
  [PIXEL_COMMAND, PIXEL_SET_PIXEL,
   address &&& FIRMATA_7BIT_MASK, (address >>> 7) &&& FIRMATA_7BIT_MASK,
   colorValue &&& FIRMATA_7BIT_MASK, (colorValue >>> 7) &&& FIRMATA_7BIT_MASK,
   (colorValue >>> 14) &&& FIRMATA_7BIT_MASK, (colorValue >>> 21) &&& FIRMATA_7BIT_MASK]

/-- JavaScript `strip.colors[index] = color`: in-range assignment, or
extension with holes (`none`) when `index` is beyond the current length. -/
def setBufferAt (buf : List (Option Color)) (index : Nat) (color : Color) : List (Option Color) :=
  if index < buf.length then buf.set index (some color)
  else buf ++ List.replicate (index - buf.length) none ++ [some color]

/-- Mutation of the strip object returned by
`this.neoPixel.find(...)`: only the first strip with the given pin is
updated, in place (its position in the registry is unchanged). -/
def updateFirstStrip (pin : Nat) (f : Strip → Strip) : List Strip → List Strip
  | [] => []
  | aStrip :: rest =>
    if aStrip.pin = pin then f aStrip :: rest
    else aStrip :: updateFirstStrip pin f rest

/-- Shallow embedding of `neoPixelSetColor` (source lines 852-882): run
the address loop over the registry as it is on entry, implicitly configure
a default-length strip when the pin has none, update the color cache, and
enqueue the set-pixel frame with the address computed before the implicit
configuration. -/
def neoPixelSetColor (gammaTable : Nat → Nat) (s : NeoPixelBoard) (pin : Nat)
    (color : Color) (index : Nat) : NeoPixelBoard :=
  let r := neoPixelAddress s.neoPixel pin index
  let s1 := if r.2 then neoPixelConfigStrip s pin s.defaultNeoPixelLength else s
  let setCache := fun (strip : Strip) =>
    { strip with colors := (some (setBufferAt
        (strip.colors.getD (List.replicate strip.length none)) index color)) }
  let s2 := { s1 with neoPixel := updateFirstStrip pin setCache s1.neoPixel }
  { s2 with frames := s2.frames ++
      [pixelSetMessage r.1 (neoPixelColorValue color gammaTable)] }

/-- Sum of the configured lengths of a list of strips. -/
def stripsTotalLength (l : List Strip) : Nat := (l.map Strip.length).sum

/-- Identity gamma table, used to instantiate the gamma-table parameter at
concrete inputs (the claims settled here do not depend on table values). -/
def gammaId : Nat → Nat := fun v => v

/-- The linear address encoded in bytes 2 and 3 of a set-pixel frame. -/
def encodedPixelAddress (frame : List Nat) : Nat := frame.getD 2 0 + 128 * frame.getD 3 0

/-- The specification's §8 scenario: strip at pin 3 with length 5, then
strip at pin 7 with length 2. -/
def demoBoard : NeoPixelBoard := neoPixelConfigStrip (neoPixelConfigStrip initialBoard 3 5) 7 2

/-- JavaScript `[...oldColors].map(colorMapFn)`: the callback receives
the element, its index, and the whole (resized) old-color array. -/
def mapWithIndexAux (f : Option Color → Nat → List (Option Color) → Option Color)
    (orig : List (Option Color)) : Nat → List (Option Color) → List (Option Color)
  | _, [] => []
  | i, c :: rest => f c i orig :: mapWithIndexAux f orig (i + 1) rest

/-- The in-place resize of `neoPixelFillColor` (source lines 896-901):
`oldColors[length - 1] = null` grows a short buffer with holes, and
`oldColors.splice(length)` truncates a long one. -/
def resizeBuffer (buf : List (Option Color)) (length : Nat) : List (Option Color) :=
  if buf.length < length then buf ++ List.replicate (length - buf.length) none
  else buf.take length

/-- The `for` loop of `neoPixelFillColor` (source lines 903-908): for each
index below the strip length, await a `neoPixelSetColor` when the mapped
color is non-null, else do nothing. -/
def fillLoop (gammaTable : Nat → Nat) (pin : Nat) (newColors : List (Option Color)) :
    Nat → Nat → NeoPixelBoard → NeoPixelBoard
  | _, 0, s => s
  | index, remaining + 1, s =>
    match newColors.getD index none with
    | some color =>
      fillLoop gammaTable pin newColors (index + 1) remaining
        (neoPixelSetColor gammaTable s pin color index)
    | none => fillLoop gammaTable pin newColors (index + 1) remaining s

/-- Shallow embedding of `neoPixelFillColor` (source lines 892-909).
When the strip has a color cache, `oldColors` aliases it, so the resize
mutates the cached buffer in place before the loop runs. -/
def neoPixelFillColor (gammaTable : Nat → Nat) (s : NeoPixelBoard) (pin : Nat)
    (colorMapFn : Option Color → Nat → List (Option Color) → Option Color) : NeoPixelBoard :=
  match s.neoPixel.find? (fun aStrip => aStrip.pin == pin) with
  | some strip =>
    match strip.colors with
    | some buf =>
      let oldColors := resizeBuffer buf strip.length
      let s1 := { s with neoPixel := (updateFirstStrip pin
        (fun st => { st with colors := some oldColors }) s.neoPixel) }
      fillLoop gammaTable pin (mapWithIndexAux colorMapFn oldColors 0 oldColors) 0 strip.length s1
    | none =>
      let oldColors := List.replicate strip.length (none : Option Color)
      fillLoop gammaTable pin (mapWithIndexAux colorMapFn oldColors 0 oldColors) 0 strip.length s
  | none =>
    let oldColors := List.replicate s.defaultNeoPixelLength (none : Option Color)
    fillLoop gammaTable pin (mapWithIndexAux colorMapFn oldColors 0 oldColors) 0
      s.defaultNeoPixelLength s

/-- The map function of claim C9: returns `null` for every slot. -/
def nullColorMapFn : Option Color → Nat → List (Option Color) → Option Color := fun _ _ _ => none

/-- A reachable board whose strip at pin 1 has a two-entry color cache but
a reconfigured length of 1: configure length 2, set both pixels, then
reconfigure to length 1 (the cache object survives the reconfiguration). -/
def fillDemoBoard : NeoPixelBoard :=
  neoPixelConfigStrip (neoPixelSetColor gammaId (neoPixelSetColor gammaId
    (neoPixelConfigStrip initialBoard 1 2) 1 (1, 2, 3) 0) 1 (4, 5, 6) 1) 1 1

/-! ## Session lifecycle and teardown (source lines 106-214, 467-487) -/

/-- The `this.state` strings: `disconnect`, `portRequesting`, `connect`,
`ready`. -/
inductive ConnState
  | disconnect
  | portRequesting
  | connect
  | ready
  deriving DecidableEq

/-- Events emitted on the board object (`connect`, `ready`, `disconnect`,
and `RELEASED`). -/
inductive LifecycleEvent
  | connectEvent
  | readyEvent
  | disconnectEvent
  | releasedEvent
  deriving DecidableEq

/-- The decoded `this.version` record `{type, major, minor}`. -/
structure BoardVersion where
  type : Nat
  major : Nat
  minor : Nat
  deriving DecidableEq

/-- The session-scoped fields of the board object touched by
`releaseBoard`: `state`, `version`, `neoPixel`, `firmata`, `transport`,
`oneWireDevices`, `extensionId`, plus the ordered list of emitted
lifecycle events. -/
structure Session where
  state : ConnState
  version : Option BoardVersion
  neoPixel : List Strip
  firmata : Option Unit
  transport : Option Unit
  oneWireDevices : Option (List Nat)
  extensionId : Option String
  events : List LifecycleEvent
  deriving DecidableEq

/-- Shallow embedding of `releaseBoard` (source lines 467-487): state to
`disconnect`, strips cleared, firmata listeners removed and reference
nulled, transport nulled, OneWire cache nulled, extension id nulled, then
`disconnect` and `RELEASED` are emitted.  `this.version` is not touched
by the source. -/
def releaseBoard (s : Session) : Session :=
  { s with
    state := ConnState.disconnect
    neoPixel := []
    firmata := none
    transport := none
    oneWireDevices := none
    extensionId := none
    events := s.events ++ [LifecycleEvent.disconnectEvent, LifecycleEvent.releasedEvent] }

/-- A ready session with a known version, one strip, a OneWire cache and
an extension id, as after a successful connect. -/
def connectedSession : Session :=
  { state := ConnState.ready, version := some ⟨2, 1, 0⟩, neoPixel := [⟨3, 5, none⟩],
    firmata := some (), transport := none, oneWireDevices := some [11],
    extensionId := some "ext", events := [] }

/-! ## Command/response correlator (source lines 33, 529-552, 969-1014)

Each query builds a promise that a `once`-listener resolves, races it
against `timeoutReject(delay)`, and on rejection removes the listeners
for the event.  `PendingRequest` is the observable state of one such
request: whether the listener is still attached and how the raced promise
settled.  A trace of `CorrEvent`s (response frames delivered by the
transport, and the timer firing) drives `requestStep`; settling an
already-settled promise is a no-op, exactly as for JavaScript promises. -/

/-- Rejection reasons: the `timeout ${delay}ms` rejection of
`timeoutReject`, the `not available` rejection for empty payloads, and
other errors. -/
inductive FailReason
  | timeoutAfter (delayMs : Nat)
  | notAvailable
  | failure (message : String)
  deriving DecidableEq

/-- How the raced promise settled. -/
inductive Outcome (α : Type)
  | resolved (value : α)
  | rejected (reason : FailReason)
  deriving DecidableEq

/-- Observable state of one in-flight request. -/
structure PendingRequest (α : Type) where
  listenerAttached : Bool
  settled : Option (Outcome α)
  deriving DecidableEq

/-- State right after the command frame is sent: `once`-listener attached,
promise pending. -/
def newRequest {α : Type} : PendingRequest α :=
  { listenerAttached := true, settled := none }

/-- Events that can reach an in-flight request: a matching response frame,
or the expiry of its `timeoutReject` timer. -/
inductive CorrEvent
  | response (data : List Nat)
  | timerFire
  deriving DecidableEq

/-- One event step.  A response fires the `once`-listener only while it is
attached (the listener detaches itself; settling an already-settled race
is a no-op).  The timer expiry rejects a still-pending race with the
timeout reason and removes the listeners (`removeAllListeners(event)` in
the `catch`); a timer firing after the race settled changes nothing. -/
def requestStep {α : Type} (decode : List Nat → Outcome α) (delayMs : Nat)
    (c : PendingRequest α) : CorrEvent → PendingRequest α
  | CorrEvent.response data =>
    if c.listenerAttached then
      { listenerAttached := false, settled := some (c.settled.getD (decode data)) }
    else c
  | CorrEvent.timerFire =>
    match c.settled with
    | some _ => c
    | none =>
      { listenerAttached := false,
        settled := some (Outcome.rejected (FailReason.timeoutAfter delayMs)) }

/-- Run a request over a trace of events, in delivery order. -/
def runRequest {α : Type} (decode : List Nat → Outcome α) (delayMs : Nat)
    (c : PendingRequest α) : List CorrEvent → PendingRequest α
  | [] => c
  | e :: rest => runRequest decode delayMs (requestStep decode delayMs c e) rest

/-- Modelled from the spec: `Firmata.decode` of the external transport
library reassembles two 7-bit bytes little-endian (§6, 7-bit packing). -/
def firmataDecode2 (b0 b1 : Nat) : Nat := (b0 &&& 0x7F) ||| ((b1 &&& 0x7F) <<< 7)

/-- The decode step of `boardVersion` (source lines 536-543): unpack the
14-bit value and split it into type/major/minor fields. -/
def boardVersionDecode (data : List Nat) : Outcome BoardVersion :=
  let value := firmataDecode2 (data.getD 0 0) (data.getD 1 0)
  Outcome.resolved ⟨(value >>> 10) &&& 0x0F, (value >>> 6) &&& 0x0F, value &&& 0x3F⟩

/-- The listener body of `getDistanceByUltrasonic` (source lines 975-980):
empty payload rejects with `not available`, otherwise decode the int16. -/
def ultrasonicDecode (data : List Nat) : Outcome Int :=
  if data.length = 0 then Outcome.rejected FailReason.notAvailable
  else Outcome.resolved (decodeInt16FromTwo7bitBytes data)

/-- The listener body of `getWaterTemp` (source lines 1001-1005): same
shape as the ultrasonic listener. -/
def waterTempDecode (data : List Nat) : Outcome Int :=
  if data.length = 0 then Outcome.rejected FailReason.notAvailable
  else Outcome.resolved (decodeInt16FromTwo7bitBytes data)

/-! ## OneWire bus (source lines 740-814)

`searchOneWireDevices` takes the external search result (what the
`sendOneWireSearch` callback would deliver) as an explicit argument.
Its outputs are the new board state, the commands sent to the transport,
and the promise outcome. -/

/-- Modelled from the spec: the ONEWIRE entry of the external transport's
pin mode constants (§6). -/
def MODES_ONEWIRE : Nat := 0x07

/-- The OneWire-relevant slice of the board object: the transport pin-mode
table and the single `this.oneWireDevices` field. -/
structure OneWireState where
  pinModes : Nat → Nat
  oneWireDevices : Option (List Nat)

/-- Commands sent to the transport by the OneWire methods. -/
inductive OneWireEffect
  | oneWireConfig (pin : Nat) (parasiticPower : Bool)
  | oneWireSearch (pin : Nat)
  | setPinMode (pin mode : Nat)
  | oneWireDelay (pin delayMs : Nat)
  | oneWireReadCmd (pin : Nat) (device : Option Nat) (numBytes : Nat)
  deriving DecidableEq

/-- Shallow embedding of `searchOneWireDevices` (source lines 740-755):
when the pin is not in one-wire mode, configure the bus and search; a
search error or an empty result rejects without touching the state; a
non-empty result switches the pin mode, stores the devices in the shared
`oneWireDevices` field, and sends the delay command.  When the pin is
already in one-wire mode, resolve the shared field as-is. -/
def searchOneWireDevices (s : OneWireState) (pin : Nat)
    (searchResult : Except String (List Nat)) :
    OneWireState × List OneWireEffect × Except String (Option (List Nat)) :=
  if s.pinModes pin ≠ MODES_ONEWIRE then
    match searchResult with
    | Except.error e =>
      (s, [OneWireEffect.oneWireConfig pin true, OneWireEffect.oneWireSearch pin],
        Except.error e)
    | Except.ok founds =>
      if founds.length < 1 then
        (s, [OneWireEffect.oneWireConfig pin true, OneWireEffect.oneWireSearch pin],
          Except.error "no device")
      else
        ({ pinModes := fun p => if p = pin then MODES_ONEWIRE else s.pinModes p,
           oneWireDevices := some founds },
         [OneWireEffect.oneWireConfig pin true, OneWireEffect.oneWireSearch pin,
          OneWireEffect.setPinMode pin MODES_ONEWIRE, OneWireEffect.oneWireDelay pin 1],
         Except.ok (some founds))
  else
    (s, [], Except.ok s.oneWireDevices)

/-- Shallow embedding of `oneWireRead` (source lines 777-788) up to the
read command: search (or hit the cache), then send `sendOneWireRead` with
`devices[0]`.  The device id placed in the read command is returned as
the observable outcome. -/
def oneWireRead (s : OneWireState) (pin numBytes : Nat)
    (searchResult : Except String (List Nat)) :
    OneWireState × List OneWireEffect × Except String (Option Nat) :=
  match searchOneWireDevices s pin searchResult with
  | (s1, effects, Except.ok devices) =>
    let device := Option.bind devices List.head?
    (s1, effects ++ [OneWireEffect.oneWireReadCmd pin device numBytes], Except.ok device)
  | (s1, effects, Except.error e) => (s1, effects, Except.error e)

/-- Board with no pin in one-wire mode and an empty device cache. -/
def initialOneWireState : OneWireState :=
  { pinModes := fun _ => 0, oneWireDevices := none }

/-- State after a successful search on pin 2 that found device 11. -/
def owAfterA : OneWireState :=
  (searchOneWireDevices initialOneWireState 2 (Except.ok [11])).1

/-- State after a further successful search on pin 4 that found device 22. -/
def owAfterAB : OneWireState :=
  (searchOneWireDevices owAfterA 4 (Except.ok [22])).1

/-! ## digitalWrite (source lines 620-632) -/

/-- One entry of the transport's live pin table. -/
structure PinRecord where
  mode : Nat
  value : Nat
  deriving DecidableEq

/-- Commands sent to the transport by `digitalWrite`. -/
inductive DigitalEffect
  | setPinMode (pin mode : Nat)
  | digitalWriteCmd (pin value : Nat)
  deriving DecidableEq

/-- The digital-write-relevant slice of the board: the transport pin
table and the ordered list of sent commands. -/
structure DigitalBoard where
  pins : Nat → PinRecord
  frames : List DigitalEffect

/-- Modelled from the spec: the OUTPUT entry of the external transport's
pin mode constants (§6). -/
def MODES_OUTPUT : Nat := 0x01

/-- Modelled from the spec: `firmata.pinMode` of the external transport
records the mode in the live pin table and sends a set-pin-mode frame. -/
def firmataPinMode (b : DigitalBoard) (pin mode : Nat) : DigitalBoard :=
  { pins := fun p => if p = pin then { b.pins p with mode := mode } else b.pins p,
    frames := b.frames ++ [DigitalEffect.setPinMode pin mode] }

/-- Modelled from the spec: `firmata.digitalWrite` of the external
transport records the value in the live pin table and, unless `enqueue`
is set, sends the write frame. -/
def firmataDigitalWrite (b : DigitalBoard) (pin value : Nat) (enqueue : Bool) : DigitalBoard :=
  { pins := fun p => if p = pin then { b.pins p with value := value } else b.pins p,
    frames := if enqueue then b.frames
      else b.frames ++ [DigitalEffect.digitalWriteCmd pin value] }

/-- Shallow embedding of `digitalWrite` (source lines 620-632): when the
cached pin value already equals the requested value, nothing is sent (the
anti-chattering early return); otherwise the pin is put in output mode
and the value is written. -/
def digitalWrite (b : DigitalBoard) (pin value : Nat) (enqueue : Bool) : DigitalBoard :=
  if (b.pins pin).value = value then b
  else firmataDigitalWrite (firmataPinMode b pin MODES_OUTPUT) pin value enqueue

/-- Pin table with every pin at mode 0 and value 1. -/
def pinDemoBoard : DigitalBoard :=
  { pins := fun _ => { mode := 0, value := 1 }, frames := [] }

/-! ## Theorems -/

set_option maxHeartbeats 4000000 in
set_option maxRecDepth 10000 in
/-- Claim C7: for every two-byte 7-bit-packed sensor payload the decoder
reassembles the 14 significant bits (7 from each byte, little-endian) and
sign-extends from bit 13; in particular `[0x7F, 0x01]` decodes to `255`,
the value whose 14-bit reassembly is `0xFF`. -/
theorem decode_int16_matches_sign_extension :
    (∀ b0 < 128, ∀ b1 < 128,
      decodeInt16FromTwo7bitBytes [b0, b1] = signExtendFrom13 b0 b1) ∧
    decodeInt16FromTwo7bitBytes [0x7F, 0x01] = 255 := by
  constructor
  · decide
  · decide

/-- Claim C7 witness: `decode_int16_matches_sign_extension` instantiated
at the payload `[0x7F, 0x01]` from the specification's scenario. -/
theorem decode_int16_matches_sign_extension_witness :
    (0x7F : Nat) < 128 ∧ (0x01 : Nat) < 128 ∧
    decodeInt16FromTwo7bitBytes [0x7F, 0x01] = signExtendFrom13 0x7F 0x01 :=
  ⟨by decide, by decide,
    decode_int16_matches_sign_extension.1 0x7F (by decide) 0x01 (by decide)⟩

/-- Claim C8: every entry of the 256-entry gamma table equals
`round (255 * (v / 255)^2.8)`, the table is monotonically non-decreasing,
and the first and last entries are `0` and `255`. -/
theorem neoPixelGammaTable_spec :
    (∀ v : Nat, v ≤ 255 →
      neoPixelGammaTable v = round (255 * ((v : ℝ) / 255) ^ (2.8 : ℝ))) ∧
    (∀ a b : Nat, a ≤ b → neoPixelGammaTable a ≤ neoPixelGammaTable b) ∧
    neoPixelGammaTable 0 = 0 ∧ neoPixelGammaTable 255 = 255 := by
  refine ⟨fun v _ => ?_, fun a b hab => ?_, ?_, ?_⟩
  · rw [round_eq, neoPixelGammaTable]
    congr 1
    ring
  · apply Int.floor_le_floor
    gcongr
  · rw [neoPixelGammaTable]
    norm_num
  · rw [neoPixelGammaTable]
    norm_num

/-- Claim C8 witness: `neoPixelGammaTable_spec` instantiated at the entry
`v = 128`, the monotone pair `3 ≤ 7`, and both endpoints. -/
theorem neoPixelGammaTable_spec_witness :
    (128 : Nat) ≤ 255 ∧
    neoPixelGammaTable 128 = round (255 * ((128 : ℝ) / 255) ^ (2.8 : ℝ)) ∧
    (3 : Nat) ≤ 7 ∧ neoPixelGammaTable 3 ≤ neoPixelGammaTable 7 ∧
    neoPixelGammaTable 0 = 0 ∧ neoPixelGammaTable 255 = 255 :=
  ⟨by decide, neoPixelGammaTable_spec.1 128 (by decide), by decide,
    neoPixelGammaTable_spec.2.1 3 7 (by decide),
    neoPixelGammaTable_spec.2.2.1, neoPixelGammaTable_spec.2.2.2⟩

/-- The address loop entered with `prevStrip = false` adds nothing more
when no remaining strip matches the pin. -/
theorem addressLoop_no_match_false (pin index addr : Nat) (l : List Strip)
    (h : ∀ t ∈ l, t.pin ≠ pin) : addressLoop pin index l addr false = (addr, false) := by
  induction l generalizing addr with
  | nil => rfl
  | cons aStrip rest ih =>
    have hne : aStrip.pin ≠ pin := h aStrip (List.mem_cons_self _ _)
    simp only [addressLoop, if_neg hne]
    exact ih addr fun t ht => h t (List.mem_cons_of_mem _ ht)

/-- The address loop entered with `prevStrip = true` accumulates the full
length of every strip when none matches the pin. -/
theorem addressLoop_no_match_true (pin index addr : Nat) (l : List Strip)
    (h : ∀ t ∈ l, t.pin ≠ pin) :
    addressLoop pin index l addr true = (addr + stripsTotalLength l, true) := by
  induction l generalizing addr with
  | nil => simp [addressLoop, stripsTotalLength]
  | cons aStrip rest ih =>
    have hne : aStrip.pin ≠ pin := h aStrip (List.mem_cons_self _ _)
    simp only [addressLoop, if_neg hne]
    rw [ih _ fun t ht => h t (List.mem_cons_of_mem _ ht)]
    simp [stripsTotalLength]
    omega

/-- Splitting the registry around the unique strip at `pin`, the computed
address is the sum of the lengths before it plus `index % length`. -/
theorem neoPixelAddress_split (pin index : Nat) (pre post : List Strip) (strip : Strip)
    (hpin : strip.pin = pin) (hpre : ∀ t ∈ pre, t.pin ≠ pin)
    (hpost : ∀ t ∈ post, t.pin ≠ pin) :
    neoPixelAddress (pre ++ strip :: post) pin index =
      (stripsTotalLength pre + index % strip.length, false) := by
  rw [neoPixelAddress]
  have main : ∀ (pre : List Strip) (addr : Nat), (∀ t ∈ pre, t.pin ≠ pin) →
      addressLoop pin index (pre ++ strip :: post) addr true =
        (addr + stripsTotalLength pre + index % strip.length, false) := by
    intro pre
    induction pre with
    | nil =>
      intro addr _
      simp only [List.nil_append, addressLoop, if_pos hpin]
      rw [addressLoop_no_match_false _ _ _ _ hpost]
      simp [stripsTotalLength]
    | cons aStrip rest ih =>
      intro addr h
      have hne : aStrip.pin ≠ pin := h aStrip (List.mem_cons_self _ _)
      simp only [List.cons_append, addressLoop, if_neg hne, List.append_eq]
      rw [ih _ fun t ht => h t (List.mem_cons_of_mem _ ht)]
      simp only [stripsTotalLength, List.map_cons, List.sum_cons]
      congr 1
      omega
  have := main pre 0 hpre
  simpa using this

/-- When no strip matches, the loop reports the total length of the
registry together with `prevStrip = true`. -/
theorem neoPixelAddress_no_match (pin index : Nat) (l : List Strip)
    (h : ∀ t ∈ l, t.pin ≠ pin) :
    neoPixelAddress l pin index = (stripsTotalLength l, true) := by
  rw [neoPixelAddress, addressLoop_no_match_true _ _ _ _ h, Nat.zero_add]

/-- Claim C1 (amended): when the pin already has a configured strip, the
set-pixel frame is addressed at the sum of the lengths of the strips
registered before it plus `index % length`; when the pin has no strip,
the implicit configuration appends a default-length strip, but the frame
is addressed at the sum of all previously registered lengths — the
`index % length` offset is not applied in that case. -/
theorem neoPixelSetColor_spec (gammaTable : Nat → Nat) (s : NeoPixelBoard)
    (pin : Nat) (color : Color) (index : Nat) :
    (∀ pre strip post, s.neoPixel = pre ++ strip :: post → strip.pin = pin →
      (∀ t ∈ pre, t.pin ≠ pin) → (∀ t ∈ post, t.pin ≠ pin) →
      (neoPixelSetColor gammaTable s pin color index).frames =
        s.frames ++ [pixelSetMessage (stripsTotalLength pre + index % strip.length)
          (neoPixelColorValue color gammaTable)]) ∧
    ((∀ t ∈ s.neoPixel, t.pin ≠ pin) →
      (neoPixelSetColor gammaTable s pin color index).frames =
        s.frames ++
          [pixelConfigMessage (s.neoPixel ++ [{ pin := pin, length := s.defaultNeoPixelLength }]),
           pixelSetMessage (stripsTotalLength s.neoPixel)
             (neoPixelColorValue color gammaTable)]) := by
  constructor
  · intro pre strip post hsplit hpin hpre hpost
    have haddr := neoPixelAddress_split pin index pre post strip hpin hpre hpost
    simp only [neoPixelSetColor, hsplit, haddr]
    simp
  · intro hnone
    have haddr := neoPixelAddress_no_match pin index s.neoPixel hnone
    have hfind : s.neoPixel.find? (fun aStrip => aStrip.pin == pin) = none :=
      List.find?_eq_none.mpr (fun x hx => by simpa using hnone x hx)
    have hfilter : s.neoPixel.filter (fun aStrip => aStrip.pin != pin) = s.neoPixel :=
      List.filter_eq_self.mpr (fun x hx => by simpa using hnone x hx)
    simp only [neoPixelSetColor, haddr, neoPixelConfigStrip, hfind, hfilter]
    simp

/-- Claim C1 counterexample: on a board with no configured strips,
`neoPixelSetColor(pin 5, index 1)` encodes linear address 0 into the
set-pixel frame, while the claimed value — sum of lengths of earlier
strips (0) plus `index mod length` (1 mod 3) — is 1. -/
theorem neoPixelSetColor_implicit_counterexample :
    encodedPixelAddress ((neoPixelSetColor gammaId initialBoard 5 (1, 2, 3) 1).frames.getD 1 []) = 0 ∧
    stripsTotalLength [] + 1 % initialBoard.defaultNeoPixelLength = 1 ∧ (0 : Nat) ≠ 1 := by
  decide

/-- Claim C1 witness: the specification's §8 scenario — strips of lengths
5 (pin 3) and 2 (pin 7); `neoPixelSetColor(pin 7, index 1)` addresses
logical position `5 + 1 % 2 = 6`. -/
theorem neoPixelSetColor_spec_witness :
    demoBoard.neoPixel = [⟨3, 5, none⟩] ++ (⟨7, 2, none⟩ : Strip) :: [] ∧
    (neoPixelSetColor gammaId demoBoard 7 (1, 2, 3) 1).frames =
      demoBoard.frames ++
        [pixelSetMessage (stripsTotalLength [⟨3, 5, none⟩] + 1 % (⟨7, 2, none⟩ : Strip).length)
          (neoPixelColorValue (1, 2, 3) gammaId)] ∧
    stripsTotalLength [⟨3, 5, none⟩] + 1 % (⟨7, 2, none⟩ : Strip).length = 6 :=
  ⟨by decide,
   (neoPixelSetColor_spec gammaId demoBoard 7 (1, 2, 3) 1).1 [⟨3, 5, none⟩] ⟨7, 2, none⟩ []
     (by decide) (by decide) (by decide) (by decide),
   by decide⟩

/-- `find?` over a registry split around its first strip at `pin`. -/
theorem find?_first_match (pin : Nat) (pre post : List Strip) (old : Strip)
    (hpin : old.pin = pin) (hpre : ∀ t ∈ pre, t.pin ≠ pin) :
    (pre ++ old :: post).find? (fun aStrip => aStrip.pin == pin) = some old := by
  induction pre with
  | nil => simp [List.find?_cons_of_pos, hpin]
  | cons a rest ih =>
    have hne : a.pin ≠ pin := hpre a (List.mem_cons_self _ _)
    rw [List.cons_append, List.find?_cons_of_neg _ (by simpa using hne)]
    exact ih fun t ht => hpre t (List.mem_cons_of_mem _ ht)

/-- Filtering out the pin removes exactly the unique matching strip. -/
theorem filter_removes_match (pin : Nat) (pre post : List Strip) (old : Strip)
    (hpin : old.pin = pin) (hpre : ∀ t ∈ pre, t.pin ≠ pin)
    (hpost : ∀ t ∈ post, t.pin ≠ pin) :
    (pre ++ old :: post).filter (fun aStrip => aStrip.pin != pin) = pre ++ post := by
  rw [List.filter_append, List.filter_cons_of_neg (by simp [hpin]),
    List.filter_eq_self.mpr (fun x hx => by simpa using hpre x hx),
    List.filter_eq_self.mpr (fun x hx => by simpa using hpost x hx)]

/-- Claim C4 (amended): `neoPixelConfigStrip` on an already-configured pin
removes the strip from its position and appends it — with the new length
and its old color cache — at the end of the registration order; a fresh
pin is appended at the end. -/
theorem neoPixelConfigStrip_order (s : NeoPixelBoard) (pin length : Nat) :
    (∀ pre old post, s.neoPixel = pre ++ old :: post → old.pin = pin →
      (∀ t ∈ pre, t.pin ≠ pin) → (∀ t ∈ post, t.pin ≠ pin) →
      (neoPixelConfigStrip s pin length).neoPixel =
        (pre ++ post) ++ [{ old with length := length }]) ∧
    ((∀ t ∈ s.neoPixel, t.pin ≠ pin) →
      (neoPixelConfigStrip s pin length).neoPixel =
        s.neoPixel ++ [{ pin := pin, length := length }]) := by
  constructor
  · intro pre old post hsplit hpin hpre hpost
    simp only [neoPixelConfigStrip, hsplit, find?_first_match pin pre post old hpin hpre,
      filter_removes_match pin pre post old hpin hpre hpost]
  · intro hnone
    have hfind : s.neoPixel.find? (fun aStrip => aStrip.pin == pin) = none :=
      List.find?_eq_none.mpr (fun x hx => by simpa using hnone x hx)
    have hfilter : s.neoPixel.filter (fun aStrip => aStrip.pin != pin) = s.neoPixel :=
      List.filter_eq_self.mpr (fun x hx => by simpa using hnone x hx)
    simp only [neoPixelConfigStrip, hfind, hfilter]

/-- Claim C4 counterexample: configure pin 3, then pin 7, then
reconfigure pin 3 — the registration order becomes `[7, 3]`, not the
claimed position-preserving `[3, 7]`. -/
theorem neoPixelConfigStrip_counterexample :
    ((neoPixelConfigStrip (neoPixelConfigStrip (neoPixelConfigStrip initialBoard 3 5) 7 2)
        3 4).neoPixel.map Strip.pin) = [7, 3] ∧ [7, 3] ≠ [3, 7] := by
  decide

/-- Claim C4 witness: `neoPixelConfigStrip_order` instantiated on the
two-strip demo board, reconfiguring pin 3 to length 4. -/
theorem neoPixelConfigStrip_order_witness :
    (neoPixelConfigStrip demoBoard 3 4).neoPixel =
      ([] ++ [(⟨7, 2, none⟩ : Strip)]) ++ [⟨3, 4, none⟩] :=
  (neoPixelConfigStrip_order demoBoard 3 4).1 [] ⟨3, 5, none⟩ [⟨7, 2, none⟩]
    (by decide) (by decide) (by decide) (by decide)

/-- Mapping the all-null function gives an all-`none` list. -/
theorem mapWithIndexAux_null (orig : List (Option Color)) :
    ∀ (l : List (Option Color)) (i : Nat),
      mapWithIndexAux nullColorMapFn orig i l = List.replicate l.length none := by
  intro l
  induction l with
  | nil => intro i; rfl
  | cons c rest ih =>
    intro i
    simp [mapWithIndexAux, nullColorMapFn, List.replicate_succ, ih]

/-- Reading any position of an all-`none` buffer yields `none`. -/
theorem getD_replicate_none (n i : Nat) :
    (List.replicate n (none : Option Color)).getD i none = none := by
  induction n generalizing i with
  | zero => cases i <;> rfl
  | succ m ih =>
    cases i with
    | zero => rfl
    | succ j => simp only [List.replicate_succ, List.getD_cons_succ]; exact ih j

/-- The fill loop over an all-`none` color list never calls
`neoPixelSetColor` and leaves the board untouched. -/
theorem fillLoop_null (gammaTable : Nat → Nat) (pin n : Nat) :
    ∀ (k i : Nat) (s : NeoPixelBoard),
      fillLoop gammaTable pin (List.replicate n none) i k s = s := by
  intro k
  induction k with
  | zero => intro i s; rfl
  | succ m ih =>
    intro i s
    simp only [fillLoop, getD_replicate_none]
    exact ih (i + 1) s

/-- `updateFirstStrip` is the identity when no strip matches. -/
theorem updateFirstStrip_of_find?_none (pin : Nat) (f : Strip → Strip) :
    ∀ l : List Strip, l.find? (fun aStrip => aStrip.pin == pin) = none →
      updateFirstStrip pin f l = l := by
  intro l
  induction l with
  | nil => intro _; rfl
  | cons a rest ih =>
    intro h
    by_cases hpin : a.pin = pin
    · rw [List.find?_cons_of_pos _ (by simpa using hpin)] at h
      cases h
    · rw [List.find?_cons_of_neg _ (by simpa using hpin)] at h
      simp only [updateFirstStrip, if_neg hpin]
      rw [ih h]

/-- Two update functions that agree on the strip found by `find?` give
the same `updateFirstStrip` result. -/
theorem updateFirstStrip_first (pin : Nat) (f g : Strip → Strip) :
    ∀ l : List Strip,
      (∀ st, l.find? (fun aStrip => aStrip.pin == pin) = some st → f st = g st) →
      updateFirstStrip pin f l = updateFirstStrip pin g l := by
  intro l
  induction l with
  | nil => intro _; rfl
  | cons a rest ih =>
    intro h
    by_cases hpin : a.pin = pin
    · simp only [updateFirstStrip, if_pos hpin]
      rw [h a (List.find?_cons_of_pos _ (by simpa using hpin))]
    · simp only [updateFirstStrip, if_neg hpin]
      rw [ih fun st hst => h st (by
        rw [List.find?_cons_of_neg _ (by simpa using hpin)]
        exact hst)]

/-- `updateFirstStrip` with the identity function is the identity. -/
theorem updateFirstStrip_id (pin : Nat) :
    ∀ l : List Strip, updateFirstStrip pin (fun t => t) l = l := by
  intro l
  induction l with
  | nil => rfl
  | cons a rest ih =>
    by_cases hpin : a.pin = pin
    · simp only [updateFirstStrip, if_pos hpin]
    · simp only [updateFirstStrip, if_neg hpin]
      rw [ih]

/-- `neoPixelFillColor` with the all-null map function: the only state
change is the in-place resize of the found strip's color cache. -/
theorem neoPixelFillColor_null_eq (gammaTable : Nat → Nat) (s : NeoPixelBoard) (pin : Nat) :
    neoPixelFillColor gammaTable s pin nullColorMapFn =
      { s with neoPixel := (updateFirstStrip pin
          (fun st => { st with colors := st.colors.map (fun buf => resizeBuffer buf st.length) })
          s.neoPixel) } := by
  rw [neoPixelFillColor]
  cases hfind : s.neoPixel.find? (fun aStrip => aStrip.pin == pin) with
  | none =>
    rw [updateFirstStrip_of_find?_none _ _ _ hfind]
    simp only [mapWithIndexAux_null, fillLoop_null]
  | some strip =>
    cases hcolors : strip.colors with
    | none =>
      simp only [hcolors]
      rw [mapWithIndexAux_null, fillLoop_null]
      have hfix : updateFirstStrip pin
          (fun st => { st with colors := st.colors.map (fun buf => resizeBuffer buf st.length) })
          s.neoPixel = s.neoPixel := by
        rw [updateFirstStrip_first pin _ (fun t => t) s.neoPixel ?_, updateFirstStrip_id]
        intro st hst
        rw [hfind] at hst
        cases hst
        cases strip with
        | mk p len cols =>
          simp only at hcolors
          subst hcolors
          rfl
      rw [hfix]
    | some buf =>
      simp only [hcolors]
      rw [mapWithIndexAux_null, fillLoop_null]
      refine congrArg (fun l => { s with neoPixel := l }) ?_
      apply updateFirstStrip_first
      intro st hst
      rw [hfind] at hst
      cases hst
      rw [hcolors]
      rfl

/-- Claim C9 (amended): `neoPixelFillColor` with a map function returning
`null` for every index enqueues no frames, and leaves every strip's color
cache unchanged except that the cache of the strip at `pin` (when it has
one) is resized in place to the strip's configured length — surviving
entries keep their values. -/
theorem neoPixelFillColor_null_spec (gammaTable : Nat → Nat) (s : NeoPixelBoard) (pin : Nat) :
    (neoPixelFillColor gammaTable s pin nullColorMapFn).frames = s.frames ∧
    (neoPixelFillColor gammaTable s pin nullColorMapFn).neoPixel =
      updateFirstStrip pin
        (fun st => { st with colors := st.colors.map (fun buf => resizeBuffer buf st.length) })
        s.neoPixel := by
  rw [neoPixelFillColor_null_eq]
  exact ⟨rfl, rfl⟩

/-- Claim C9 counterexample: on the reachable board whose strip at pin 1
has a two-entry cache but configured length 1, the all-null fill truncates
the cached buffer — the color buffer does not stay unchanged. -/
theorem neoPixelFillColor_counterexample :
    (fillDemoBoard.neoPixel.map Strip.colors) = [some [some (1, 2, 3), some (4, 5, 6)]] ∧
    ((neoPixelFillColor gammaId fillDemoBoard 1 nullColorMapFn).neoPixel.map Strip.colors) =
      [some [some (1, 2, 3)]] ∧
    (some [some ((1 : Nat), (2 : Nat), (3 : Nat)), some (4, 5, 6)] :
        Option (List (Option Color))) ≠ some [some (1, 2, 3)] := by
  refine ⟨by decide, by decide, by decide⟩

/-- Claim C3 (amended): `releaseBoard` resets the state to `disconnect`,
empties the strip registry, clears the OneWire cache, nulls the firmata
and transport references and the extension id, and emits `disconnect`
followed by `RELEASED` — but it leaves `version` unchanged rather than
resetting it to `null`. -/
theorem releaseBoard_spec (s : Session) :
    (releaseBoard s).state = ConnState.disconnect ∧
    (releaseBoard s).neoPixel = [] ∧
    (releaseBoard s).oneWireDevices = none ∧
    (releaseBoard s).firmata = none ∧
    (releaseBoard s).transport = none ∧
    (releaseBoard s).extensionId = none ∧
    (releaseBoard s).events =
      s.events ++ [LifecycleEvent.disconnectEvent, LifecycleEvent.releasedEvent] ∧
    (releaseBoard s).version = s.version :=
  ⟨rfl, rfl, rfl, rfl, rfl, rfl, rfl, rfl⟩

/-- Claim C3 counterexample: releasing a ready session with version
`2.1.0` leaves `version` at `2.1.0`, not `null`. -/
theorem releaseBoard_counterexample :
    (releaseBoard connectedSession).version = some ⟨2, 1, 0⟩ ∧
    some (⟨2, 1, 0⟩ : BoardVersion) ≠ none := by
  refine ⟨by decide, by decide⟩

/-- A request that is already settled with its listener removed is a
fixed point of every further event. -/
theorem runRequest_dead {α : Type} (decode : List Nat → Outcome α) (delayMs : Nat)
    (o : Outcome α) (trace : List CorrEvent) :
    runRequest decode delayMs { listenerAttached := false, settled := some o } trace =
      { listenerAttached := false, settled := some o } := by
  induction trace with
  | nil => rfl
  | cons e rest ih =>
    rw [runRequest]
    cases e with
    | response data => exact ih
    | timerFire => exact ih

/-- If the timer fires before any response, the request ends rejected
with the timeout reason and no listener, whatever arrives afterwards. -/
theorem runRequest_timeout_eq {α : Type} (decode : List Nat → Outcome α) (delayMs : Nat)
    (pre post : List CorrEvent) (hpre : ∀ data, CorrEvent.response data ∉ pre) :
    runRequest decode delayMs newRequest (pre ++ CorrEvent.timerFire :: post) =
      { listenerAttached := false,
        settled := some (Outcome.rejected (FailReason.timeoutAfter delayMs)) } := by
  induction pre with
  | nil =>
    rw [List.nil_append, runRequest]
    exact runRequest_dead decode delayMs _ post
  | cons e rest ih =>
    cases e with
    | response data => exact absurd (List.mem_cons_self _ _) (hpre data)
    | timerFire =>
      rw [List.cons_append, runRequest]
      exact runRequest_dead decode delayMs _ (rest ++ CorrEvent.timerFire :: post)

/-- Claim C2: for every query using the correlator, if the timeout timer
fires before any matching response event, the request settles rejected
with the timeout reason carrying the delay, the response listener is
removed, and no response emitted after the deadline ever resolves it. -/
theorem request_timeout_no_zombie {α : Type} (decode : List Nat → Outcome α) (delayMs : Nat)
    (pre post : List CorrEvent) (hpre : ∀ data, CorrEvent.response data ∉ pre) :
    (runRequest decode delayMs newRequest (pre ++ CorrEvent.timerFire :: post)).settled =
      some (Outcome.rejected (FailReason.timeoutAfter delayMs)) ∧
    (runRequest decode delayMs newRequest
      (pre ++ CorrEvent.timerFire :: post)).listenerAttached = false ∧
    (∀ v : α, (runRequest decode delayMs newRequest (pre ++ CorrEvent.timerFire :: post)).settled ≠
      some (Outcome.resolved v)) := by
  rw [runRequest_timeout_eq decode delayMs pre post hpre]
  refine ⟨rfl, rfl, fun v h => ?_⟩
  cases h

/-- Claim C2 witness: an ultrasonic request with a 1000 ms timeout whose
timer fires first and which then receives a late matching response still
ends rejected with the timeout reason. -/
theorem request_timeout_no_zombie_witness :
    (∀ data, CorrEvent.response data ∉ ([] : List CorrEvent)) ∧
    (runRequest ultrasonicDecode 1000 newRequest
        ([] ++ CorrEvent.timerFire :: [CorrEvent.response [0x7F, 0x01]])).settled =
      some (Outcome.rejected (FailReason.timeoutAfter 1000)) :=
  ⟨fun _ => List.not_mem_nil _,
   (request_timeout_no_zombie ultrasonicDecode 1000 [] [CorrEvent.response [0x7F, 0x01]]
     (fun _ => List.not_mem_nil _)).1⟩

/-- Claim C6: `searchOneWireDevices` on a pin that is not in one-wire
mode and whose bus search finds zero devices rejects with the
`no device` error, sends only the config and search commands, leaves the
state (pin modes and device cache) exactly as it was, and a subsequent
call therefore behaves like a fresh search. -/
theorem searchOneWireDevices_no_device (s : OneWireState) (pin : Nat)
    (h : s.pinModes pin ≠ MODES_ONEWIRE) :
    searchOneWireDevices s pin (Except.ok []) =
      (s, [OneWireEffect.oneWireConfig pin true, OneWireEffect.oneWireSearch pin],
        Except.error "no device") ∧
    (∀ r, searchOneWireDevices (searchOneWireDevices s pin (Except.ok [])).1 pin r =
      searchOneWireDevices s pin r) := by
  have h1 : searchOneWireDevices s pin (Except.ok []) =
      (s, [OneWireEffect.oneWireConfig pin true, OneWireEffect.oneWireSearch pin],
        Except.error "no device") := by
    simp [searchOneWireDevices, h]
  exact ⟨h1, fun r => by rw [h1]⟩

/-- Claim C6 witness: `searchOneWireDevices_no_device` instantiated at
pin 2 of the fresh board. -/
theorem searchOneWireDevices_no_device_witness :
    initialOneWireState.pinModes 2 ≠ MODES_ONEWIRE ∧
    searchOneWireDevices initialOneWireState 2 (Except.ok []) =
      (initialOneWireState,
        [OneWireEffect.oneWireConfig 2 true, OneWireEffect.oneWireSearch 2],
        Except.error "no device") :=
  ⟨by decide, (searchOneWireDevices_no_device initialOneWireState 2 (by decide)).1⟩

/-- Claim C5 (amended): the OneWire device cache is a single board-wide
field, not a per-pin map — after a successful search on pin B, a read on
an already-configured pin A is given the head of pin B's device list. -/
theorem oneWireDevices_shared_cache (s : OneWireState) (pinA pinB numBytes : Nat)
    (foundsB : List Nat) (r : Except String (List Nat))
    (hA : s.pinModes pinA = MODES_ONEWIRE)
    (hB : s.pinModes pinB ≠ MODES_ONEWIRE)
    (hlen : 1 ≤ foundsB.length) :
    (oneWireRead (searchOneWireDevices s pinB (Except.ok foundsB)).1 pinA numBytes r).2.2 =
      Except.ok foundsB.head? := by
  have hs1 : (searchOneWireDevices s pinB (Except.ok foundsB)).1 =
      { pinModes := fun p => if p = pinB then MODES_ONEWIRE else s.pinModes p,
        oneWireDevices := some foundsB } := by
    simp [searchOneWireDevices, hB, Nat.not_lt.mpr hlen]
  rw [hs1]
  have hmode : (if pinA = pinB then MODES_ONEWIRE else s.pinModes pinA) = MODES_ONEWIRE := by
    by_cases hab : pinA = pinB
    · simp [hab]
    · simp [hab, hA]
  simp [oneWireRead, searchOneWireDevices, hmode]

/-- Claim C5 counterexample: search pin 2 (device 11), then pin 4
(device 22); a read on pin 2 is handed device 22, not the device 11 that
was discovered on pin 2. -/
theorem oneWire_cache_counterexample :
    (oneWireRead owAfterAB 2 9 (Except.error "unused")).2.2 = Except.ok (some 22) ∧
    (Except.ok (some 22) : Except String (Option Nat)) ≠ Except.ok (some 11) := by
  refine ⟨by rfl, by simp⟩

/-- Claim C5 witness: `oneWireDevices_shared_cache` instantiated with
pin A = 2 (already configured, device 11 cached) and pin B = 4 finding
device 22. -/
theorem oneWireDevices_shared_cache_witness :
    owAfterA.pinModes 2 = MODES_ONEWIRE ∧
    owAfterA.pinModes 4 ≠ MODES_ONEWIRE ∧
    1 ≤ ([22] : List Nat).length ∧
    (oneWireRead (searchOneWireDevices owAfterA 4 (Except.ok [22])).1 2 9
      (Except.error "unused")).2.2 = Except.ok ([22] : List Nat).head? :=
  ⟨by decide, by decide, by decide,
   oneWireDevices_shared_cache owAfterA 2 4 9 [22] (Except.error "unused")
     (by decide) (by decide) (by decide)⟩

/-- Claim C10: `digitalWrite` on a pin whose cached value already equals
the requested value sends nothing and changes nothing; when the cached
value differs, it puts the pin in output mode and writes the value. -/
theorem digitalWrite_spec (b : DigitalBoard) (pin value : Nat) (enqueue : Bool) :
    ((b.pins pin).value = value → digitalWrite b pin value enqueue = b) ∧
    ((b.pins pin).value ≠ value →
      (digitalWrite b pin value enqueue).pins pin =
        { mode := MODES_OUTPUT, value := value } ∧
      (digitalWrite b pin value enqueue).frames =
        b.frames ++ (DigitalEffect.setPinMode pin MODES_OUTPUT ::
          if enqueue then [] else [DigitalEffect.digitalWriteCmd pin value])) := by
  constructor
  · intro h
    simp [digitalWrite, h]
  · intro h
    constructor
    · simp [digitalWrite, h, firmataPinMode, firmataDigitalWrite]
    · simp [digitalWrite, h, firmataPinMode, firmataDigitalWrite]
      cases enqueue <;> simp

/-- Claim C10 witness: `digitalWrite_spec` instantiated on a pin table
with value 1 at pin 2 — writing 1 is a no-op, writing 0 sets output mode
and sends the write. -/
theorem digitalWrite_spec_witness :
    ((pinDemoBoard.pins 2).value = 1 ∧ digitalWrite pinDemoBoard 2 1 false = pinDemoBoard) ∧
    ((pinDemoBoard.pins 2).value ≠ 0 ∧
      (digitalWrite pinDemoBoard 2 0 false).pins 2 = { mode := MODES_OUTPUT, value := 0 } ∧
      (digitalWrite pinDemoBoard 2 0 false).frames =
        pinDemoBoard.frames ++ (DigitalEffect.setPinMode 2 MODES_OUTPUT ::
          if false then [] else [DigitalEffect.digitalWriteCmd 2 0])) :=
  ⟨⟨rfl, (digitalWrite_spec pinDemoBoard 2 1 false).1 rfl⟩,
   ⟨by decide, (digitalWrite_spec pinDemoBoard 2 0 false).2 (by decide)⟩⟩

end AkaDako
